import Mathlib

/-!
# Verification of the Go code generator's compiler core (gen-go-code.py)

A shallow embedding of the specification-to-source compiler in
`gen-go-code.py`: the Type Mapper (`go_field_type`), the JSON Field Model
(`JSONField`), the Command Compiler core of `go_code_for_remote_command`
(field parsing loop, field-to-option matching pass, `match_window` exception
pass, the two fatal consistency checks), and the Idempotent Writer
(`replace_if_needed`).

Python strings are modelled as Lean `String` / `List Char`; Python
exceptions (`TypeError`, `KeyError`, `ValueError`, `IndexError`,
`SystemExit`) become `Except` / `Option` error values carrying the same
data that the Python messages are formatted from.  Collaborators
(`cmd.args`, `rc_command_options`, the template) are taken as opaque
inputs: a list of declared option variable names, the statements and
handled-field set contributed by the argument collaborator, and the raw
protocol-spec text.
-/

namespace GenGoCode

/-- Model of Python `s.split(c, 1)` restricted to a one-character separator:
`none` when `c` does not occur in `l`, otherwise the parts before and after
the first occurrence. -/
def splitOnce : List Char → Char → Option (List Char × List Char)
  | [], _ => none
  | x :: xs, c =>
    if x = c then some ([], xs)
    else
      match splitOnce xs c with
      | none => none
      | some (p, r) => some (x :: p, r)

/-- The exact-match table `json_field_types` of gen-go-code.py. -/
def json_field_types : List (String × String) :=
  [("bool", "bool"), ("str", "escaped_string"), ("list.str", "[]escaped_string"),
   ("dict.str", "map[escaped_string]escaped_string"), ("float", "float64"), ("int", "int"),
   ("scroll_amount", "any"), ("spacing", "any"), ("colors", "any")]

/-- The two ways the Type Mapper can fail: `unknownType tok` models
`TypeError(f'Unknown JSON field type: {json_field_type}')`, while
`keyError p` models the `KeyError` raised by
`{'list': '[]', 'dict': 'map[string]'}[p]` when a dotted token's prefix
text is neither `list` nor `dict`. -/
inductive GoTypeError where
  | unknownType (tok : String)
  | keyError (key : String)
deriving DecidableEq, Repr

/-- Python `json_field_type.startswith('choices.')`. -/
def startsWithChoices (l : List Char) : Bool :=
  "choices.".data.isPrefixOf l

/-- The Type Mapper `go_field_type`, on the character list of the token,
with an explicit fuel argument so the recursion is structural (the source
recurses on the remainder after the first `.`, which is strictly shorter,
so fuel `l.length + 1` always suffices; the fuel-0 branch is dead code, see
`goFieldTypeFuel_irrel`).  Order of checks follows the source: exact
table, `choices.`-start, split on the first `.` with the head word looked
up in `{'list': '[]', 'dict': 'map[string]'}` and the remainder resolved
recursively, otherwise `TypeError`. -/
def goFieldTypeFuel : Nat → List Char → Except GoTypeError String
  | 0, l => Except.error (GoTypeError.unknownType (String.mk l))
  | fuel + 1, l =>
    match json_field_types.lookup (String.mk l) with
    | some q => Except.ok q
    | none =>
      if startsWithChoices l then Except.ok "string"
      else
        match splitOnce l '.' with
        | some (p, r) =>
          if String.mk p = "list" then
            match goFieldTypeFuel fuel r with
            | Except.ok t => Except.ok ("[]" ++ t)
            | Except.error e => Except.error e
          else if String.mk p = "dict" then
            match goFieldTypeFuel fuel r with
            | Except.ok t => Except.ok ("map[string]" ++ t)
            | Except.error e => Except.error e
          else Except.error (GoTypeError.keyError (String.mk p))
        | none => Except.error (GoTypeError.unknownType (String.mk l))

/-- The Type Mapper on a character list, with sufficient fuel. -/
def goFieldType (l : List Char) : Except GoTypeError String :=
  goFieldTypeFuel (l.length + 1) l

/-- `go_field_type` on strings. -/
def go_field_type (s : String) : Except GoTypeError String :=
  goFieldType s.data

/-- Upper-case the first character of a name: `field[0].upper() + field[1:]`. -/
def upperFirst : List Char → List Char
  | [] => []
  | c :: cs => c.toUpper :: cs

/-- The JSON Field Model: one parsed line of a protocol field
specification (class `JSONField` of the source). -/
structure JSONField where
  field : String
  field_type : String
  required : Bool
  struct_field_name : String
deriving DecidableEq, Repr

/-- `JSONField.__init__`: take the text before the first `:` (the whole
line when there is none), split it on the first `/` (Python raises
`ValueError` when `/` is absent, modelled as `none`), strip a trailing `+`
into the required flag, and upper-case the first character of the name for
the struct field identifier (Python raises `IndexError` on an empty name,
modelled as `none`). -/
def JSONField.parse (line : String) : Option JSONField :=
  let field_def : List Char :=
    match splitOnce line.data ':' with
    | some (before, _) => before
    | none => line.data
  match splitOnce field_def '/' with
  | none => none
  | some (f₀, t) =>
    let req_f : Bool × List Char :=
      if f₀.getLast? = some '+' then (true, f₀.dropLast) else (false, f₀)
    match req_f.2 with
    | [] => none
    | c :: rest =>
      some { field := String.mk (c :: rest), field_type := String.mk t,
             required := req_f.1,
             struct_field_name := String.mk (c.toUpper :: rest) }

/-- `JSONField.go_declaration`: fails when the Type Mapper fails on the
field's type. -/
def JSONField.go_declaration (f : JSONField) : Except GoTypeError String :=
  match go_field_type f.field_type with
  | Except.ok t =>
    Except.ok (f.struct_field_name ++ " " ++ t ++ "`json:\"" ++ f.field ++ ",omitempty\"`")
  | Except.error e => Except.error e

/-- The whitespace set of Python `str.strip()` (ASCII part). -/
def pyIsSpace (c : Char) : Bool :=
  c = ' ' || c = '\t' || c = '\n' || c = '\r' || c = '\x0B' || c = '\x0C'

/-- Python `line.strip()`. -/
def pyStrip (l : List Char) : List Char :=
  ((l.dropWhile pyIsSpace).reverse.dropWhile pyIsSpace).reverse

/-- Python `str.splitlines()` on the line boundaries that occur in the
protocol specifications (`\n`, `\r\n`, `\r`): a trailing boundary does not
open a final empty line. -/
def pySplitlinesAux : List Char → List Char → List (List Char)
  | [], acc => if acc.isEmpty then [] else [acc.reverse]
  | '\r' :: '\n' :: rest, acc => acc.reverse :: pySplitlinesAux rest []
  | '\n' :: rest, acc => acc.reverse :: pySplitlinesAux rest []
  | '\r' :: rest, acc => acc.reverse :: pySplitlinesAux rest []
  | c :: rest, acc => pySplitlinesAux rest (c :: acc)

def pySplitlines (s : String) : List String :=
  (pySplitlinesAux s.data []).map String.mk

/-- The failure modes of `go_code_for_remote_command`: a field line the
`JSONField` constructor rejects (Python `ValueError`/`IndexError`), a type
the Type Mapper rejects, and the two `SystemExit` consistency failures —
`cantMapFields fields cmd` models
`SystemExit('Cant map fields: <fields> for cmd: <cmd>')` and
`unusedOptions opts cmd` models
`SystemExit('Unused options: <opts> for command: <cmd>')`, each carrying
the names the Python message is formatted from. -/
inductive GenError where
  | fieldError (line : String)
  | typeMapError (e : GoTypeError)
  | cantMapFields (fields : List String) (cmd : String)
  | unusedOptions (opts : List String) (cmd : String)
deriving DecidableEq, Repr

/-- The field parsing loop of `go_code_for_remote_command`: strip each
line, skip lines without a `:`, construct a `JSONField` and its
`go_declaration` for the rest, aborting at the first failure.  Returns
(`json_fields`, `jd`). -/
def parseFieldsLoop : List String → Except GenError (List JSONField × List String)
  | [] => Except.ok ([], [])
  | l :: ls =>
    if (pyStrip l.data).contains ':' then
      match JSONField.parse (String.mk (pyStrip l.data)) with
      | none => Except.error (GenError.fieldError (String.mk (pyStrip l.data)))
      | some f =>
        match f.go_declaration with
        | Except.error e => Except.error (GenError.typeMapError e)
        | Except.ok d =>
          match parseFieldsLoop ls with
          | Except.error e => Except.error e
          | Except.ok (fs, ds) => Except.ok (f :: fs, d :: ds)
    else parseFieldsLoop ls

/-- Python `str.capitalize()`: first character upper-cased, the rest
lower-cased. -/
def pyCapitalize : List Char → List Char
  | [] => []
  | c :: cs => c.toUpper :: cs.map Char.toLower

/-- Python `s.split(c)` (no maxsplit): always at least one part. -/
def splitAll (l : List Char) (c : Char) : List (List Char) :=
  match l with
  | [] => [[]]
  | x :: xs =>
    let r := splitAll xs c
    if x = c then [] :: r
    else
      match r with
      | [] => [[x]]
      | h :: t => (x :: h) :: t

/-- `''.join(x.capitalize() for x in oq.split('_'))`. -/
def snakeToCamel (s : String) : String :=
  String.join ((splitAll s.data '_').map (fun w => String.mk (pyCapitalize w)))

/-- State threaded through the field-to-option matching passes: the
value-binding statements `jc`, the `used_options` set (modelled by list
membership), and the `unhandled` dict (insertion-ordered key/value list
with unique keys). -/
structure PassState where
  jc : List String
  used : List String
  unhandled : List (String × JSONField)
deriving DecidableEq, Repr

/-- Python dict assignment `d[k] = v`: overwrite in place, else append. -/
def assocInsert {α : Type} (l : List (String × α)) (k : String) (v : α) :
    List (String × α) :=
  match l with
  | [] => [(k, v)]
  | (k', v') :: t => if k' = k then (k, v) :: t else (k', v') :: assocInsert t k v

/-- Python `del d[k]`. -/
def assocErase {α : Type} (l : List (String × α)) (k : String) : List (String × α) :=
  match l with
  | [] => []
  | (k', v') :: t => if k' = k then t else (k', v') :: assocErase t k

/-- The value-binding statement emitted for a matched field: an escaping
call for `str`, `list.str` and `dict.str`, a plain assignment otherwise
(`go_code_for_remote_command`, main loop). -/
def bindingStmt (name : String) (f : JSONField) (ovar : String) : String :=
  if f.field_type = "str" then
    "payload." ++ f.struct_field_name ++ " = escaped_string(options_" ++ name ++ "." ++ ovar ++ ")"
  else if f.field_type = "list.str" then
    "payload." ++ f.struct_field_name ++ " = escape_list_of_strings(options_" ++ name ++ "." ++ ovar ++ ")"
  else if f.field_type = "dict.str" then
    "payload." ++ f.struct_field_name ++ " = escape_dict_of_strings(options_" ++ name ++ "." ++ ovar ++ ")"
  else
    "payload." ++ f.struct_field_name ++ " = options_" ++ name ++ "." ++ ovar

/-- One iteration of the main field loop: compute the option name through
the rename table and `snakeToCamel`; on a declared option emit a binding
and mark it used; else skip fields already handled by the argument
collaborator; else record the field as unhandled. -/
def mainStep (name : String) (options : List String) (fmap : List (String × String))
    (handled : List String) (st : PassState) (field : JSONField) : PassState :=
  let oq := snakeToCamel ((fmap.lookup field.field).getD field.field)
  if oq ∈ options then
    { st with used := oq :: st.used, jc := st.jc ++ [bindingStmt name field oq] }
  else if field.field ∈ handled then st
  else { st with unhandled := assocInsert st.unhandled field.field field }

/-- The main field loop, starting from the statements contributed by the
argument collaborator (`cmd.args.as_go_code`). -/
def mainPass (name : String) (options : List String) (fmap : List (String × String))
    (handled : List String) (args_jc : List String) (fields : List JSONField) : PassState :=
  fields.foldl (mainStep name options fmap handled)
    { jc := args_jc, used := [], unhandled := [] }

/-- The statement emitted by the `match_window` exception pass: only the
`str` type gets the escaping call here. -/
def mwStmt (name : String) (f : JSONField) (ovar : String) : String :=
  if f.field_type = "str" then
    "payload." ++ f.struct_field_name ++ " = escaped_string(options_" ++ name ++ "." ++ ovar ++ ")"
  else
    "payload." ++ f.struct_field_name ++ " = options_" ++ name ++ "." ++ ovar

/-- One iteration of the `for x in tuple(unhandled)` loop: the
`match_window`/`Match` backward-compatibility exception. -/
def mwStep (name : String) (options : List String) (st : PassState) (x : String) : PassState :=
  if x = "match_window" ∧ "Match" ∈ options ∧ "Match" ∉ st.used then
    match st.unhandled.lookup x with
    | some f =>
      { jc := st.jc ++ [mwStmt name f "Match"],
        used := "Match" :: st.used,
        unhandled := assocErase st.unhandled x }
    | none => st
  else st

/-- The `match_window` exception pass, iterating over a snapshot of the
unhandled keys. -/
def mwPass (name : String) (options : List String) (st : PassState) : PassState :=
  (st.unhandled.map Prod.fst).foldl (mwStep name options) st

/-- `set(option_map) - used_options - {'NoResponse', 'ResponseTimeout'}`,
modelled by membership as a filter of the declared option names. -/
def unusedOpts (options used : List String) : List String :=
  options.filter (fun o => decide (o ∉ used ∧ o ≠ "NoResponse" ∧ o ≠ "ResponseTimeout"))

/-- The fragments the command compiler produces for one command (those the
claims are about): the JSON struct declarations `jd`, the value-binding
statements `jc`, and the set of consumed options. -/
structure CompileOutput where
  jd : List String
  jc : List String
  used_options : List String
deriving DecidableEq, Repr

/-- The field-binding core of `go_code_for_remote_command`: parse the
protocol spec into fields and declarations, run the main matching pass and
the `match_window` pass, then the two fatal consistency checks in source
order (unresolved fields first, unused options second, the latter skipped
for `send_text`).  `options` is the list of `go_var_name`s of
`rc_command_options(name)`; `args_jc` and `handled` are the statements and
handled-field names contributed by the `cmd.args` collaborator. -/
def go_code_for_remote_command (name : String) (options : List String)
    (protocol_spec : String) (fmap : List (String × String))
    (args_jc : List String) (handled : List String) : Except GenError CompileOutput :=
  match parseFieldsLoop (pySplitlines protocol_spec) with
  | Except.error e => Except.error e
  | Except.ok (json_fields, jd) =>
    let st := mwPass name options (mainPass name options fmap handled args_jc json_fields)
    if st.unhandled ≠ [] then
      Except.error (GenError.cantMapFields (st.unhandled.map Prod.fst) name)
    else
      let unused := unusedOpts options st.used
      if name ≠ "send_text" ∧ unused ≠ [] then
        Except.error (GenError.unusedOptions unused name)
      else
        Except.ok { jd := jd, jc := st.jc, used_options := st.used }

/-- The fixed generated-file banner, with `os.path.basename(__file__)`
evaluated for the generator script. -/
def generatedBanner : String := "// Code generated by gen-go-code.py; DO NOT EDIT.\n\n"

/-- The state the Idempotent Writer acts on: the file tree (path to
content) and the `changed` list of rewritten paths. -/
structure FileSystem where
  files : List (String × String)
  changed : List String
deriving DecidableEq, Repr

/-- `replace_if_needed`: read the existing content (a missing file reads
as the empty string, the suppressed `FileNotFoundError`), prepend the
generated-file banner to the rendered text, and rewrite the file —
recording the path in `changed` — only when the result differs.  The
`show_diff` debugging branch of the source (spawning `diff`) is outside
the model. -/
def replace_if_needed (fs : FileSystem) (path : String) (content : String) : FileSystem :=
  let orig := (fs.files.lookup path).getD ""
  let new := generatedBanner ++ content
  if orig = new then fs
  else { files := assocInsert fs.files path new, changed := fs.changed ++ [path] }

/-! ## Basic facts about the embedding -/

theorem splitOnce_length_lt {l : List Char} {c : Char} {p r : List Char}
    (h : splitOnce l c = some (p, r)) : r.length < l.length := by
  induction l generalizing p r with
  | nil => simp [splitOnce] at h
  | cons x xs ih =>
    simp only [splitOnce] at h
    split at h
    · cases h
      simp
    · cases hs : splitOnce xs c with
      | none => rw [hs] at h; cases h
      | some pr =>
        obtain ⟨p', r'⟩ := pr
        rw [hs] at h
        cases h
        exact Nat.lt_succ_of_lt (ih hs)

theorem splitOnce_eq_none {l : List Char} {c : Char} :
    splitOnce l c = none ↔ c ∉ l := by
  induction l with
  | nil => simp [splitOnce]
  | cons x xs ih =>
    simp only [splitOnce, List.mem_cons]
    by_cases hx : x = c
    · simp [hx]
    · simp only [if_neg hx]
      cases hs : splitOnce xs c with
      | none =>
        have hnotin : c ∉ xs := ih.mp hs
        constructor
        · intro _ hc
          rcases hc with hc | hc
          · exact hx hc.symm
          · exact hnotin hc
        · intro _; rfl
      | some pr =>
        obtain ⟨p, r⟩ := pr
        constructor
        · intro h; cases h
        · intro h
          have hin : c ∈ xs := by
            by_contra hc
            exact absurd (ih.mpr hc) (by simp [hs])
          exact absurd (Or.inr hin) h

/-- If `c` does not occur in `a`, splitting `a ++ c :: b` on `c` finds the
occurrence separating `a` from `b`. -/
theorem splitOnce_append {a b : List Char} {c : Char} (h : c ∉ a) :
    splitOnce (a ++ c :: b) c = some (a, b) := by
  induction a with
  | nil => simp [splitOnce]
  | cons x xs ih =>
    have hx : x ≠ c := fun hxc => h (by simp [hxc])
    have hxs : c ∉ xs := fun hc => h (List.mem_cons_of_mem _ hc)
    simp [splitOnce, if_neg hx, ih hxs]

/-- Any fuel above the token length gives the same result: the fuel is an
artifact of the embedding, not of the source. -/
theorem goFieldTypeFuel_irrel :
    ∀ (f₁ : Nat) (l : List Char) (f₂ : Nat), l.length < f₁ → l.length < f₂ →
      goFieldTypeFuel f₁ l = goFieldTypeFuel f₂ l := by
  intro f₁
  induction f₁ with
  | zero => intro l f₂ h₁ _; exact absurd h₁ (Nat.not_lt_zero _)
  | succ f ih =>
    intro l f₂ h₁ h₂
    cases f₂ with
    | zero => exact absurd h₂ (Nat.not_lt_zero _)
    | succ g =>
      simp only [goFieldTypeFuel]
      cases json_field_types.lookup (String.mk l) with
      | some q => rfl
      | none =>
        simp only
        by_cases hch : startsWithChoices l
        · simp [hch]
        · simp only [hch, Bool.false_eq_true, if_false]
          cases hs : splitOnce l '.' with
          | none => rfl
          | some pr =>
            obtain ⟨p, r⟩ := pr
            have hr : r.length < l.length := splitOnce_length_lt hs
            have hrec : goFieldTypeFuel f r = goFieldTypeFuel g r :=
              ih r g (Nat.lt_of_lt_of_le hr (Nat.le_of_lt_succ h₁))
                (Nat.lt_of_lt_of_le hr (Nat.le_of_lt_succ h₂))
            simp only [hrec]

/-- Unfolding equation for `goFieldType`: the recursive structure of the
source function, with the fuel hidden. -/
theorem goFieldType_eq (l : List Char) :
    goFieldType l =
      match json_field_types.lookup (String.mk l) with
      | some q => Except.ok q
      | none =>
        if startsWithChoices l then Except.ok "string"
        else
          match splitOnce l '.' with
          | some (p, r) =>
            if String.mk p = "list" then
              match goFieldType r with
              | Except.ok t => Except.ok ("[]" ++ t)
              | Except.error e => Except.error e
            else if String.mk p = "dict" then
              match goFieldType r with
              | Except.ok t => Except.ok ("map[string]" ++ t)
              | Except.error e => Except.error e
            else Except.error (GoTypeError.keyError (String.mk p))
          | none => Except.error (GoTypeError.unknownType (String.mk l)) := by
  show goFieldTypeFuel (l.length + 1) l = _
  simp only [goFieldTypeFuel]
  cases json_field_types.lookup (String.mk l) with
  | some q => rfl
  | none =>
    simp only
    by_cases hch : startsWithChoices l
    · simp [hch]
    · simp only [hch, Bool.false_eq_true, if_false]
      cases hs : splitOnce l '.' with
      | none => rfl
      | some pr =>
        obtain ⟨p, r⟩ := pr
        have hr : r.length < l.length := splitOnce_length_lt hs
        have hrec : goFieldTypeFuel l.length r = goFieldType r :=
          goFieldTypeFuel_irrel l.length r (r.length + 1) hr (Nat.lt_succ_self _)
        simp only [hrec]

example : go_field_type "str" = Except.ok "escaped_string" := rfl
example : go_field_type "list.dict.str" = Except.ok "[]map[escaped_string]escaped_string" := rfl
example : go_field_type "x.y" = Except.error (GoTypeError.keyError "x") := rfl
example : go_field_type "frob" = Except.error (GoTypeError.unknownType "frob") := rfl
example : go_field_type "choices.foo" = Except.ok "string" := rfl

example : JSONField.parse "cursor+/str: description" =
    some { field := "cursor", field_type := "str", required := true,
           struct_field_name := "Cursor" } := rfl
example : JSONField.parse "cursor/str: description" =
    some { field := "cursor", field_type := "str", required := false,
           struct_field_name := "Cursor" } := rfl

example : pySplitlines "a\nb\n" = ["a", "b"] := rfl
example : pySplitlines "" = [] := rfl
example : snakeToCamel "match_window" = "MatchWindow" := rfl
example : snakeToCamel "cursor" = "Cursor" := rfl

example :
    go_code_for_remote_command "c" [] "foo/str: x" [] [] [] =
      Except.error (GenError.cantMapFields ["foo"] "c") := rfl

example :
    go_code_for_remote_command "c" ["Foo"] "foo/str: x" [] [] [] =
      Except.ok { jd := ["Foo escaped_string`json:\"foo,omitempty\"`"],
                  jc := ["payload.Foo = escaped_string(options_c.Foo)"],
                  used_options := ["Foo"] } := rfl

example :
    go_code_for_remote_command "c" ["Extra", "Foo"] "foo/str: x" [] [] [] =
      Except.error (GenError.unusedOptions ["Extra"] "c") := rfl

example :
    go_code_for_remote_command "c" ["Match"] "match_window/str: x" [] [] [] =
      Except.ok { jd := ["Match_window escaped_string`json:\"match_window,omitempty\"`"],
                  jc := ["payload.Match_window = escaped_string(options_c.Match)"],
                  used_options := ["Match"] } := rfl

/-! ## Parsing a structured field-specification line -/

theorem String_mk_data (s : String) : String.mk s.data = s := rfl

/-- Parsing a line `name/type: rest` when the name is a plain identifier
(no `:`, no `/`, nonempty, no trailing `+`) and the type has no `:`. -/
theorem JSONField_parse_line (name type rest : String)
    (h1 : ':' ∉ name.data) (h2 : '/' ∉ name.data) (h3 : ':' ∉ type.data)
    (h4 : name.data ≠ []) (h5 : name.data.getLast? ≠ some '+') :
    JSONField.parse (name ++ "/" ++ type ++ ":" ++ rest) =
      some { field := name, field_type := type, required := false,
             struct_field_name := String.mk (upperFirst name.data) } := by
  obtain ⟨nd⟩ := name
  obtain ⟨td⟩ := type
  obtain ⟨rd⟩ := rest
  have hd : (String.mk nd ++ "/" ++ String.mk td ++ ":" ++ String.mk rd).data
      = (nd ++ '/' :: td) ++ ':' :: rd := by
    show (((nd ++ ['/']) ++ td) ++ [':']) ++ rd = (nd ++ '/' :: td) ++ ':' :: rd
    simp [List.append_assoc]
  have hA : ':' ∉ nd ++ '/' :: td := by
    intro hmem
    rcases List.mem_append.mp hmem with hc | hc
    · exact h1 hc
    · rcases List.mem_cons.mp hc with hc | hc
      · exact absurd hc (by decide)
      · exact h3 hc
  simp only [JSONField.parse, hd, splitOnce_append hA, splitOnce_append h2]
  rw [if_neg h5]
  obtain ⟨c, cs, rfl⟩ := List.exists_cons_of_ne_nil h4
  rfl

/-- Parsing a line `name+/type: rest` under the same side conditions. -/
theorem JSONField_parse_line_plus (name type rest : String)
    (h1 : ':' ∉ name.data) (h2 : '/' ∉ name.data) (h3 : ':' ∉ type.data)
    (h4 : name.data ≠ []) :
    JSONField.parse (name ++ "+/" ++ type ++ ":" ++ rest) =
      some { field := name, field_type := type, required := true,
             struct_field_name := String.mk (upperFirst name.data) } := by
  obtain ⟨nd⟩ := name
  obtain ⟨td⟩ := type
  obtain ⟨rd⟩ := rest
  have hd : (String.mk nd ++ "+/" ++ String.mk td ++ ":" ++ String.mk rd).data
      = ((nd ++ ['+']) ++ '/' :: td) ++ ':' :: rd := by
    show (((nd ++ ['+', '/']) ++ td) ++ [':']) ++ rd = ((nd ++ ['+']) ++ '/' :: td) ++ ':' :: rd
    simp [List.append_assoc]
  have hA : ':' ∉ (nd ++ ['+']) ++ '/' :: td := by
    intro hmem
    rcases List.mem_append.mp hmem with hc | hc
    · rcases List.mem_append.mp hc with hc | hc
      · exact h1 hc
      · exact absurd (List.mem_singleton.mp hc) (by decide)
    · rcases List.mem_cons.mp hc with hc | hc
      · exact absurd hc (by decide)
      · exact h3 hc
  have hB : '/' ∉ nd ++ ['+'] := by
    intro hmem
    rcases List.mem_append.mp hmem with hc | hc
    · exact h2 hc
    · exact absurd (List.mem_singleton.mp hc) (by decide)
  have hlast : (nd ++ ['+']).getLast? = some '+' := by
    simp
  simp only [JSONField.parse, hd, splitOnce_append hA, splitOnce_append hB]
  rw [if_pos hlast]
  simp only [List.dropLast_concat]
  obtain ⟨c, cs, rfl⟩ := List.exists_cons_of_ne_nil h4
  rfl

/-- C7: parsing one field-specification line `name[+]/type: free-text`
yields a `JSONField` whose name is the text before `/` with any trailing
`+` removed, whose required flag is set exactly when the name part ends in
`+`, whose type is the text between `/` and the first `:`, whose struct
field identifier upper-cases only the first character of the name, and
which is independent of the free text after the first `:`. -/
theorem jsonfield_line_parse (name type rest : String)
    (h1 : ':' ∉ name.data) (h2 : '/' ∉ name.data) (h3 : ':' ∉ type.data)
    (h4 : name.data ≠ []) (h5 : name.data.getLast? ≠ some '+') :
    JSONField.parse (name ++ "/" ++ type ++ ":" ++ rest) =
      some { field := name, field_type := type, required := false,
             struct_field_name := String.mk (upperFirst name.data) } ∧
    JSONField.parse (name ++ "+/" ++ type ++ ":" ++ rest) =
      some { field := name, field_type := type, required := true,
             struct_field_name := String.mk (upperFirst name.data) } :=
  ⟨JSONField_parse_line name type rest h1 h2 h3 h4 h5,
   JSONField_parse_line_plus name type rest h1 h2 h3 h4⟩

/-- C7 witness: `cursor+/str: description` parses to a required field
`cursor` with identifier `Cursor` and type `str`. -/
theorem jsonfield_line_parse_witness :
    JSONField.parse "cursor+/str: description" =
      some { field := "cursor", field_type := "str", required := true,
             struct_field_name := "Cursor" } :=
  (jsonfield_line_parse "cursor" "str" " description"
    (by decide) (by decide) (by decide) (by decide) (by decide)).2

/-- C10: the generated struct declaration always carries the JSON tag
`json:"<field>,omitempty"` and never reads the required flag: two
field-specification lines differing only in the trailing `+` produce
byte-identical declarations. -/
theorem go_declaration_ignores_required (name type rest : String)
    (h1 : ':' ∉ name.data) (h2 : '/' ∉ name.data) (h3 : ':' ∉ type.data)
    (h4 : name.data ≠ []) (h5 : name.data.getLast? ≠ some '+') :
    ∃ f₁ f₂ : JSONField,
      JSONField.parse (name ++ "/" ++ type ++ ":" ++ rest) = some f₁ ∧
      JSONField.parse (name ++ "+/" ++ type ++ ":" ++ rest) = some f₂ ∧
      f₁.required = false ∧ f₂.required = true ∧
      f₁.go_declaration = f₂.go_declaration ∧
      ∀ t, go_field_type type = Except.ok t →
        f₁.go_declaration =
          Except.ok (String.mk (upperFirst name.data) ++ " " ++ t ++
            "`json:\"" ++ name ++ ",omitempty\"`") := by
  refine ⟨_, _, JSONField_parse_line name type rest h1 h2 h3 h4 h5,
    JSONField_parse_line_plus name type rest h1 h2 h3 h4, rfl, rfl, rfl, ?_⟩
  intro t ht
  simp [JSONField.go_declaration, ht]

/-- C10 witness: the two spellings of the `cursor` line produce the same
declaration text. -/
theorem go_declaration_ignores_required_witness :
    ∃ f₁ f₂ : JSONField,
      JSONField.parse "cursor/str: d" = some f₁ ∧
      JSONField.parse "cursor+/str: d" = some f₂ ∧
      f₁.required = false ∧ f₂.required = true ∧
      f₁.go_declaration = f₂.go_declaration ∧
      ∀ t, go_field_type "str" = Except.ok t →
        f₁.go_declaration =
          Except.ok (String.mk (upperFirst "cursor".data) ++ " " ++ t ++
            "`json:\"" ++ "cursor" ++ ",omitempty\"`") :=
  go_declaration_ignores_required "cursor" "str" " d"
    (by decide) (by decide) (by decide) (by decide) (by decide)

/-! ## The Type Mapper's failure behavior -/

/-- C4 counterexample: the dotted token `x.y` is outside the exact-match
table, does not start with `choices.`, and its head word `x` is neither
`list` nor `dict`; `go_field_type` fails on it with the `KeyError` of the
wrapper-dictionary lookup, not with the "unknown type" `TypeError` the
claim promises for every such token. -/
theorem go_field_type_keyerror_counterexample :
    go_field_type "x.y" = Except.error (GoTypeError.keyError "x") ∧
    (match go_field_type "x.y" with
     | Except.error (GoTypeError.unknownType _) => False
     | _ => True) :=
  ⟨rfl, trivial⟩

/-- C4 (amended): whenever `go_field_type` succeeds, the token was in the
exact-match table, started with `choices.`, or was a dotted token whose
head word is `list` or `dict` and whose remainder resolves recursively —
so on every token outside that grammar it fails (with the unknown-type
error, or with the key-lookup error for a dotted token whose head word is
neither `list` nor `dict`) and never silently returns a default type. -/
theorem go_field_type_never_defaults (tok t : String)
    (h : go_field_type tok = Except.ok t) :
    json_field_types.lookup tok = some t ∨
    (startsWithChoices tok.data = true ∧ t = "string") ∨
    (∃ p r rt, splitOnce tok.data '.' = some (p, r) ∧ goFieldType r = Except.ok rt ∧
      ((String.mk p = "list" ∧ t = "[]" ++ rt) ∨
       (String.mk p = "dict" ∧ t = "map[string]" ++ rt))) := by
  obtain ⟨ld⟩ := tok
  have h' : goFieldType ld = Except.ok t := h
  rw [goFieldType_eq] at h'
  cases hl : json_field_types.lookup (String.mk ld) with
  | some q =>
    rw [hl] at h'
    simp only at h'
    cases h'
    exact Or.inl rfl
  | none =>
    rw [hl] at h'
    simp only at h'
    by_cases hch : startsWithChoices ld
    · rw [if_pos hch] at h'
      cases h'
      exact Or.inr (Or.inl ⟨hch, rfl⟩)
    · rw [if_neg hch] at h'
      cases hs : splitOnce ld '.' with
      | none => rw [hs] at h'; cases h'
      | some pr =>
        obtain ⟨p, r⟩ := pr
        rw [hs] at h'
        simp only at h'
        by_cases hpl : String.mk p = "list"
        · rw [if_pos hpl] at h'
          cases hr : goFieldType r with
          | ok rt =>
            rw [hr] at h'
            cases h'
            exact Or.inr (Or.inr ⟨p, r, rt, rfl, hr, Or.inl ⟨hpl, rfl⟩⟩)
          | error e => rw [hr] at h'; cases h'
        · rw [if_neg hpl] at h'
          by_cases hpd : String.mk p = "dict"
          · rw [if_pos hpd] at h'
            cases hr : goFieldType r with
            | ok rt =>
              rw [hr] at h'
              cases h'
              exact Or.inr (Or.inr ⟨p, r, rt, rfl, hr, Or.inr ⟨hpd, rfl⟩⟩)
            | error e => rw [hr] at h'; cases h'
          · rw [if_neg hpd] at h'
            cases h'

/-- C4 witness: instantiating the inversion at the table token `bool`. -/
theorem go_field_type_never_defaults_witness :
    json_field_types.lookup "bool" = some "bool" ∨
    (startsWithChoices "bool".data = true ∧ "bool" = "string") ∨
    (∃ p r rt, splitOnce "bool".data '.' = some (p, r) ∧ goFieldType r = Except.ok rt ∧
      ((String.mk p = "list" ∧ "bool" = "[]" ++ rt) ∨
       (String.mk p = "dict" ∧ "bool" = "map[string]" ++ rt))) :=
  go_field_type_never_defaults "bool" "bool" rfl

/-- C5 counterexample: `list.dict.str` resolves through the exact-match
table entry for the remainder `dict.str`, giving
`[]map[escaped_string]escaped_string` — not the `[]map[string]string` the
claim asserts. -/
theorem list_dict_str_counterexample :
    go_field_type "list.dict.str" = Except.ok "[]map[escaped_string]escaped_string" ∧
    ("[]map[escaped_string]escaped_string" : String) ≠ "[]map[string]string" :=
  ⟨rfl, by decide⟩

/-- C5 (amended): a dotted token outside the exact-match table and not
`choices.`-prefixed is split on the first `.`, with head word `list`
mapped to the `[]` wrapper and `dict` to the `map[string]` wrapper and the
remainder resolved recursively; `choices.`-prefixed tokens resolve to the
plain `string` type; and `list.dict.str` resolves to
`[]map[escaped_string]escaped_string` because its remainder `dict.str` is
itself in the exact-match table. -/
theorem go_field_type_container_split :
    (∀ tok p r, json_field_types.lookup tok = none → startsWithChoices tok.data = false →
      splitOnce tok.data '.' = some (p, r) →
      go_field_type tok =
        if String.mk p = "list" then
          match goFieldType r with
          | Except.ok t => Except.ok ("[]" ++ t)
          | Except.error e => Except.error e
        else if String.mk p = "dict" then
          match goFieldType r with
          | Except.ok t => Except.ok ("map[string]" ++ t)
          | Except.error e => Except.error e
        else Except.error (GoTypeError.keyError (String.mk p))) ∧
    (∀ tok, json_field_types.lookup tok = none → startsWithChoices tok.data = true →
      go_field_type tok = Except.ok "string") ∧
    go_field_type "list.dict.str" = Except.ok "[]map[escaped_string]escaped_string" := by
  refine ⟨?_, ?_, rfl⟩
  · intro tok p r h1 h2 h3
    obtain ⟨ld⟩ := tok
    show goFieldType ld = _
    rw [goFieldType_eq, h1, h3]
    simp only [h2, Bool.false_eq_true, if_false]
  · intro tok h1 h2
    obtain ⟨ld⟩ := tok
    show goFieldType ld = _
    rw [goFieldType_eq, h1]
    simp only [h2, if_true]

/-- C5 witness: instantiating the split rule at `list.int`. -/
theorem go_field_type_container_split_witness :
    go_field_type "list.int" = Except.ok "[]int" :=
  Eq.trans
    (go_field_type_container_split.1 "list.int" "list".data "int".data rfl rfl rfl) rfl

/-! ## The field parsing loop -/

/-- On success the parsing loop is `filter` + `mapM`: one field per
colon-containing (after stripping) line, in order. -/
theorem parseFieldsLoop_filter_mapM (lines : List String) (fs : List JSONField)
    (ds : List String) (h : parseFieldsLoop lines = Except.ok (fs, ds)) :
    (lines.filter (fun l => (pyStrip l.data).contains ':')).mapM
        (fun l => JSONField.parse (String.mk (pyStrip l.data))) = some fs ∧
    fs.length = (lines.filter (fun l => (pyStrip l.data).contains ':')).length := by
  induction lines generalizing fs ds with
  | nil =>
    simp only [parseFieldsLoop] at h
    cases h
    exact ⟨rfl, rfl⟩
  | cons l ls ih =>
    simp only [parseFieldsLoop] at h
    by_cases hc : (pyStrip l.data).contains ':'
    · rw [if_pos hc] at h
      cases hp : JSONField.parse (String.mk (pyStrip l.data)) with
      | none => rw [hp] at h; cases h
      | some f =>
        rw [hp] at h
        simp only at h
        cases hg : f.go_declaration with
        | error e => rw [hg] at h; cases h
        | ok d =>
          rw [hg] at h
          simp only at h
          cases hrec : parseFieldsLoop ls with
          | error e => rw [hrec] at h; cases h
          | ok pr =>
            obtain ⟨fs', ds'⟩ := pr
            rw [hrec] at h
            simp only [Except.ok.injEq, Prod.mk.injEq] at h
            obtain ⟨hfs, -⟩ := h
            obtain ⟨ih1, ih2⟩ := ih fs' ds' hrec
            subst hfs
            rw [List.filter_cons_of_pos (by exact hc)]
            constructor
            · rw [List.mapM_cons, hp, ih1]
              rfl
            · simp [ih2]
    · rw [if_neg hc] at h
      obtain ⟨ih1, ih2⟩ := ih fs ds h
      rw [List.filter_cons_of_neg (by simpa using hc)]
      exact ⟨ih1, ih2⟩

/-- C8: on every well-formed block the compiler's field loop produces
exactly one `JSONField` per line that, after stripping, contains a `:`,
in line order; lines without a `:` contribute no field. -/
theorem fields_one_per_colon_line (protocol_spec : String) (fs : List JSONField)
    (ds : List String)
    (h : parseFieldsLoop (pySplitlines protocol_spec) = Except.ok (fs, ds)) :
    ((pySplitlines protocol_spec).filter (fun l => (pyStrip l.data).contains ':')).mapM
        (fun l => JSONField.parse (String.mk (pyStrip l.data))) = some fs ∧
    fs.length =
      ((pySplitlines protocol_spec).filter
        (fun l => (pyStrip l.data).contains ':')).length :=
  parseFieldsLoop_filter_mapM (pySplitlines protocol_spec) fs ds h

/-- C8 witness: a block with a blank line and a colon-free separator line
yields exactly its two field lines, in order. -/
theorem fields_one_per_colon_line_witness :
    ((pySplitlines "foo/str: x\n\nbar/int: y").filter
        (fun l => (pyStrip l.data).contains ':')).mapM
        (fun l => JSONField.parse (String.mk (pyStrip l.data))) =
      some [{ field := "foo", field_type := "str", required := false,
              struct_field_name := "Foo" },
            { field := "bar", field_type := "int", required := false,
              struct_field_name := "Bar" }] ∧
    ([{ field := "foo", field_type := "str", required := false,
        struct_field_name := "Foo" },
      { field := "bar", field_type := "int", required := false,
        struct_field_name := "Bar" }] : List JSONField).length =
      ((pySplitlines "foo/str: x\n\nbar/int: y").filter
        (fun l => (pyStrip l.data).contains ':')).length :=
  fields_one_per_colon_line "foo/str: x\n\nbar/int: y" _ _ rfl

/-! ## The main matching pass and the fatal checks -/

/-- C1: whenever the field specification parses but some field is still
unresolved after the main matching pass and the `match_window` exception
pass, compilation aborts with the `SystemExit` error carrying every
unresolved field name and the command name — no output is produced. -/
theorem unresolved_fields_abort (name : String) (options : List String)
    (protocol_spec : String) (fmap : List (String × String))
    (args_jc handled : List String) (fs : List JSONField) (ds : List String)
    (hp : parseFieldsLoop (pySplitlines protocol_spec) = Except.ok (fs, ds))
    (hu : (mwPass name options (mainPass name options fmap handled args_jc fs)).unhandled ≠ []) :
    go_code_for_remote_command name options protocol_spec fmap args_jc handled =
      Except.error (GenError.cantMapFields
        ((mwPass name options
            (mainPass name options fmap handled args_jc fs)).unhandled.map Prod.fst)
        name) := by
  simp only [go_code_for_remote_command, hp]
  rw [if_pos hu]

/-- C1 witness: a command with one field and no options fails naming the
field and the command. -/
theorem unresolved_fields_abort_witness :
    go_code_for_remote_command "c" [] "foo/str: x" [] [] [] =
      Except.error (GenError.cantMapFields ["foo"] "c") :=
  unresolved_fields_abort "c" [] "foo/str: x" [] [] []
    [{ field := "foo", field_type := "str", required := false, struct_field_name := "Foo" }]
    ["Foo escaped_string`json:\"foo,omitempty\"`"] rfl (by decide)

/-- C2: once every field is resolved, any declared option never consumed
by a binding — the reserved `NoResponse` and `ResponseTimeout` excluded —
aborts compilation with the `SystemExit` error carrying exactly the unused
option names and the command name; for the designated `send_text` command
this check is skipped entirely and compilation succeeds. -/
theorem unused_options_abort_unless_send_text (name : String) (options : List String)
    (protocol_spec : String) (fmap : List (String × String))
    (args_jc handled : List String) (fs : List JSONField) (ds : List String)
    (hp : parseFieldsLoop (pySplitlines protocol_spec) = Except.ok (fs, ds))
    (hr : (mwPass name options (mainPass name options fmap handled args_jc fs)).unhandled = []) :
    (name ≠ "send_text" →
      unusedOpts options
          (mwPass name options (mainPass name options fmap handled args_jc fs)).used ≠ [] →
      go_code_for_remote_command name options protocol_spec fmap args_jc handled =
        Except.error (GenError.unusedOptions
          (unusedOpts options
            (mwPass name options (mainPass name options fmap handled args_jc fs)).used)
          name)) ∧
    (name = "send_text" →
      go_code_for_remote_command name options protocol_spec fmap args_jc handled =
        Except.ok
          { jd := ds,
            jc := (mwPass name options (mainPass name options fmap handled args_jc fs)).jc,
            used_options :=
              (mwPass name options (mainPass name options fmap handled args_jc fs)).used }) ∧
    (∀ o, o ∈ unusedOpts options
        (mwPass name options (mainPass name options fmap handled args_jc fs)).used ↔
      (o ∈ options ∧
       o ∉ (mwPass name options (mainPass name options fmap handled args_jc fs)).used ∧
       o ≠ "NoResponse" ∧ o ≠ "ResponseTimeout")) := by
  refine ⟨?_, ?_, ?_⟩
  · intro hn hu
    simp only [go_code_for_remote_command, hp]
    rw [if_neg (fun hc => hc hr), if_pos ⟨hn, hu⟩]
  · intro hn
    simp only [go_code_for_remote_command, hp]
    rw [if_neg (fun hc => hc hr), if_neg (fun hc => hc.1 hn)]
  · intro o
    simp [unusedOpts, List.mem_filter]

/-- C2 witness: an extra declared option that no field consumes aborts the
`c` command naming the option. -/
theorem unused_options_abort_unless_send_text_witness :
    go_code_for_remote_command "c" ["Extra", "Foo"] "foo/str: x" [] [] [] =
      Except.error (GenError.unusedOptions ["Extra"] "c") :=
  (unused_options_abort_unless_send_text "c" ["Extra", "Foo"] "foo/str: x" [] [] []
    [{ field := "foo", field_type := "str", required := false, struct_field_name := "Foo" }]
    ["Foo escaped_string`json:\"foo,omitempty\"`"] rfl (by decide)).1
    (by decide) (by decide)

/-- The binding statements accumulated by the main loop, as a
`filterMap` over the fields from the argument collaborator's statements. -/
theorem foldl_mainStep_jc (name : String) (options : List String)
    (fmap : List (String × String)) (handled : List String)
    (fs : List JSONField) (st : PassState) :
    (fs.foldl (mainStep name options fmap handled) st).jc =
      st.jc ++ fs.filterMap (fun f =>
        let oq := snakeToCamel ((fmap.lookup f.field).getD f.field)
        if oq ∈ options then some (bindingStmt name f oq) else none) := by
  induction fs generalizing st with
  | nil => simp
  | cons f fs ih =>
    rw [List.foldl_cons, ih]
    by_cases h1 : snakeToCamel ((fmap.lookup f.field).getD f.field) ∈ options
    · simp [mainStep, h1, List.filterMap_cons]
    · by_cases h2 : f.field ∈ handled
      · simp [mainStep, h1, h2, List.filterMap_cons]
      · simp [mainStep, h1, h2, List.filterMap_cons]

/-- The options consumed by the main loop, as a `filterMap` over the
fields. -/
theorem foldl_mainStep_used (name : String) (options : List String)
    (fmap : List (String × String)) (handled : List String)
    (fs : List JSONField) (st : PassState) :
    (fs.foldl (mainStep name options fmap handled) st).used =
      (fs.filterMap (fun f =>
        let oq := snakeToCamel ((fmap.lookup f.field).getD f.field)
        if oq ∈ options then some oq else none)).reverse ++ st.used := by
  induction fs generalizing st with
  | nil => simp
  | cons f fs ih =>
    rw [List.foldl_cons, ih]
    by_cases h1 : snakeToCamel ((fmap.lookup f.field).getD f.field) ∈ options
    · simp [mainStep, h1, List.filterMap_cons]
    · by_cases h2 : f.field ∈ handled
      · simp [mainStep, h1, h2, List.filterMap_cons]
      · simp [mainStep, h1, h2, List.filterMap_cons]

/-- C6: the main pass emits exactly one value-binding statement per field
whose computed option name (rename table, then snake-to-camel) matches a
declared option — in field order, after the argument collaborator's
statements — marks exactly those options used, and the statement is the
escaping call for `str`, `list.str` and `dict.str` and a plain assignment
for every other type. -/
theorem main_pass_binding_statements (name : String) (options : List String)
    (fmap : List (String × String)) (handled args_jc : List String)
    (fs : List JSONField) :
    ((mainPass name options fmap handled args_jc fs).jc =
      args_jc ++ fs.filterMap (fun f =>
        let oq := snakeToCamel ((fmap.lookup f.field).getD f.field)
        if oq ∈ options then some (bindingStmt name f oq) else none)) ∧
    ((mainPass name options fmap handled args_jc fs).used =
      (fs.filterMap (fun f =>
        let oq := snakeToCamel ((fmap.lookup f.field).getD f.field)
        if oq ∈ options then some oq else none)).reverse) ∧
    (∀ f ov, f.field_type = "str" → bindingStmt name f ov =
      "payload." ++ f.struct_field_name ++ " = escaped_string(options_" ++ name ++
        "." ++ ov ++ ")") ∧
    (∀ f ov, f.field_type = "list.str" → bindingStmt name f ov =
      "payload." ++ f.struct_field_name ++ " = escape_list_of_strings(options_" ++ name ++
        "." ++ ov ++ ")") ∧
    (∀ f ov, f.field_type = "dict.str" → bindingStmt name f ov =
      "payload." ++ f.struct_field_name ++ " = escape_dict_of_strings(options_" ++ name ++
        "." ++ ov ++ ")") ∧
    (∀ f ov, f.field_type ≠ "str" → f.field_type ≠ "list.str" → f.field_type ≠ "dict.str" →
      bindingStmt name f ov =
        "payload." ++ f.struct_field_name ++ " = options_" ++ name ++ "." ++ ov) := by
  refine ⟨foldl_mainStep_jc name options fmap handled fs _, ?_, ?_, ?_, ?_, ?_⟩
  · rw [mainPass, foldl_mainStep_used]
    simp
  · intro f ov h; simp [bindingStmt, h]
  · intro f ov h; simp [bindingStmt, h]
  · intro f ov h; simp [bindingStmt, h]
  · intro f ov h1 h2 h3; simp [bindingStmt, h1, h2, h3]

/-- C6 witness: a matched `str` field gets the escaping binding. -/
theorem main_pass_binding_statements_witness :
    bindingStmt "c"
        { field := "foo", field_type := "str", required := false, struct_field_name := "Foo" }
        "Foo" =
      "payload." ++ "Foo" ++ " = escaped_string(options_" ++ "c" ++ "." ++ "Foo" ++ ")" :=
  (main_pass_binding_statements "c" [] [] [] [] []).2.2.1
    { field := "foo", field_type := "str", required := false, struct_field_name := "Foo" }
    "Foo" rfl

/-! ## The match_window exception pass -/

theorem mwStep_eq_of_ne (name : String) (options : List String) (st : PassState)
    (x : String) (hx : x ≠ "match_window") : mwStep name options st x = st := by
  simp [mwStep, hx]

theorem mwStep_eq_of_nofire (name : String) (options : List String) (st : PassState)
    (x : String) (h : "Match" ∉ options ∨ "Match" ∈ st.used) :
    mwStep name options st x = st := by
  rw [mwStep, if_neg]
  rintro ⟨-, h2, h3⟩
  rcases h with h | h
  · exact h h2
  · exact h3 h

theorem foldl_mwStep_of_ne (name : String) (options : List String)
    (xs : List String) (st : PassState) (h : ∀ x ∈ xs, x ≠ "match_window") :
    xs.foldl (mwStep name options) st = st := by
  induction xs generalizing st with
  | nil => rfl
  | cons x xs ih =>
    rw [List.foldl_cons, mwStep_eq_of_ne name options st x (h x (List.mem_cons_self x xs))]
    exact ih st fun y hy => h y (List.mem_cons_of_mem x hy)

theorem foldl_mwStep_of_nofire (name : String) (options : List String)
    (xs : List String) (st : PassState) (h : "Match" ∉ options ∨ "Match" ∈ st.used) :
    xs.foldl (mwStep name options) st = st := by
  induction xs with
  | nil => rfl
  | cons x xs ih =>
    rw [List.foldl_cons, mwStep_eq_of_nofire name options st x h]
    exact ih

theorem lookup_of_mem_keys {α : Type} (l : List (String × α)) (k : String)
    (h : k ∈ l.map Prod.fst) : ∃ v, l.lookup k = some v := by
  induction l with
  | nil => simp at h
  | cons kv t ih =>
    obtain ⟨k', v'⟩ := kv
    by_cases hk : k = k'
    · subst hk
      exact ⟨v', by simp [List.lookup]⟩
    · simp only [List.map_cons, List.mem_cons] at h
      rcases h with h | h
      · exact absurd h hk
      · obtain ⟨v, hv⟩ := ih h
        have hkb : (k == k') = false := by simp [hk]
        exact ⟨v, by simp [List.lookup, hkb, hv]⟩

theorem mwStep_fire (name : String) (options : List String) (st : PassState)
    (f : JSONField) (h1 : "Match" ∈ options) (h2 : "Match" ∉ st.used)
    (h3 : st.unhandled.lookup "match_window" = some f) :
    mwStep name options st "match_window" =
      { jc := st.jc ++ [mwStmt name f "Match"],
        used := "Match" :: st.used,
        unhandled := assocErase st.unhandled "match_window" } := by
  rw [mwStep, if_pos ⟨rfl, h1, h2⟩, h3]

theorem assocErase_keys_not_mem {α : Type} {l : List (String × α)} {k : String}
    (h : (l.map Prod.fst).Nodup) : k ∉ (assocErase l k).map Prod.fst := by
  induction l with
  | nil => simp [assocErase]
  | cons kv t ih =>
    obtain ⟨k', v'⟩ := kv
    simp only [List.map_cons, List.nodup_cons] at h
    by_cases hk : k' = k
    · subst hk
      simpa [assocErase] using h.1
    · simp only [assocErase, if_neg hk, List.map_cons, List.mem_cons]
      rintro (hc | hc)
      · exact hk hc.symm
      · exact ih h.2 hc

theorem assocInsert_keys {α : Type} (l : List (String × α)) (k : String) (v : α) :
    (assocInsert l k v).map Prod.fst =
      if k ∈ l.map Prod.fst then l.map Prod.fst else l.map Prod.fst ++ [k] := by
  induction l with
  | nil => simp [assocInsert]
  | cons kv t ih =>
    obtain ⟨k', v'⟩ := kv
    by_cases hk : k' = k
    · subst hk
      simp [assocInsert]
    · simp only [assocInsert, if_neg hk, List.map_cons, ih]
      have hk' : ¬(k = k') := fun he => hk he.symm
      by_cases hmem : k ∈ t.map Prod.fst
      · simp [hmem, hk']
      · simp [hmem, hk']

theorem assocInsert_keys_nodup {α : Type} {l : List (String × α)} (k : String) (v : α)
    (h : (l.map Prod.fst).Nodup) : ((assocInsert l k v).map Prod.fst).Nodup := by
  rw [assocInsert_keys]
  by_cases hmem : k ∈ l.map Prod.fst
  · simpa [hmem] using h
  · simp only [hmem, if_false]
    simp [List.nodup_append, h, hmem]

theorem mainStep_unhandled_nodup (name : String) (options : List String)
    (fmap : List (String × String)) (handled : List String)
    (st : PassState) (f : JSONField)
    (h : (st.unhandled.map Prod.fst).Nodup) :
    ((mainStep name options fmap handled st f).unhandled.map Prod.fst).Nodup := by
  by_cases h1 : snakeToCamel ((fmap.lookup f.field).getD f.field) ∈ options
  · simpa [mainStep, h1] using h
  · by_cases h2 : f.field ∈ handled
    · simpa [mainStep, h1, h2] using h
    · simp only [mainStep, if_neg h1, if_pos h2, if_neg h2]
      exact assocInsert_keys_nodup f.field f h

theorem mainPass_unhandled_nodup (name : String) (options : List String)
    (fmap : List (String × String)) (handled args_jc : List String)
    (fs : List JSONField) :
    ((mainPass name options fmap handled args_jc fs).unhandled.map Prod.fst).Nodup := by
  suffices H : ∀ (fs : List JSONField) (st : PassState),
      (st.unhandled.map Prod.fst).Nodup →
      (((fs.foldl (mainStep name options fmap handled) st)).unhandled.map Prod.fst).Nodup by
    exact H fs { jc := args_jc, used := [], unhandled := [] } (by simp)
  intro fs
  induction fs with
  | nil => intro st h; exact h
  | cons f fs ih =>
    intro st h
    exact ih _ (mainStep_unhandled_nodup name options fmap handled st f h)

/-- C3: after the main matching pass, an unresolved field named
`match_window` with a declared, not-yet-consumed `Match` option is bound
through the exception (removed from the unresolved set, `Match` marked
used); if `Match` is undeclared or already consumed, or no `match_window`
field is unresolved, the pass changes nothing. -/
theorem match_window_exception (name : String) (options : List String)
    (fmap : List (String × String)) (handled args_jc : List String)
    (fs : List JSONField) (st1 : PassState)
    (hst : st1 = mainPass name options fmap handled args_jc fs) :
    (("match_window" ∈ st1.unhandled.map Prod.fst ∧ "Match" ∈ options ∧
        "Match" ∉ st1.used) →
      ("Match" ∈ (mwPass name options st1).used ∧
       (mwPass name options st1).unhandled = assocErase st1.unhandled "match_window" ∧
       "match_window" ∉ (mwPass name options st1).unhandled.map Prod.fst)) ∧
    (("Match" ∉ options ∨ "Match" ∈ st1.used) → mwPass name options st1 = st1) ∧
    ("match_window" ∉ st1.unhandled.map Prod.fst → mwPass name options st1 = st1) := by
  have hnd : (st1.unhandled.map Prod.fst).Nodup := by
    rw [hst]; exact mainPass_unhandled_nodup name options fmap handled args_jc fs
  refine ⟨?_, ?_, ?_⟩
  · rintro ⟨hmem, hMopt, hMused⟩
    obtain ⟨f, hf⟩ := lookup_of_mem_keys st1.unhandled "match_window" hmem
    obtain ⟨l₁, l₂, hkeys⟩ := List.append_of_mem hmem
    have hnd' := hnd
    rw [hkeys, List.nodup_append] at hnd'
    obtain ⟨-, hnd₂, hdisj⟩ := hnd'
    have hl₁ : ∀ x ∈ l₁, x ≠ "match_window" := by
      intro x hx heq
      subst heq
      exact hdisj hx (List.mem_cons_self _ _)
    have hl₂ : "match_window" ∉ l₂ := (List.nodup_cons.mp hnd₂).1
    have hpass : mwPass name options st1 =
        { jc := st1.jc ++ [mwStmt name f "Match"],
          used := "Match" :: st1.used,
          unhandled := assocErase st1.unhandled "match_window" } := by
      rw [mwPass, hkeys, List.foldl_append, foldl_mwStep_of_ne name options l₁ st1 hl₁,
        List.foldl_cons, mwStep_fire name options st1 f hMopt hMused hf]
      exact foldl_mwStep_of_nofire name options l₂ _ (Or.inr (List.mem_cons_self _ _))
    rw [hpass]
    exact ⟨List.mem_cons_self _ _, rfl, assocErase_keys_not_mem hnd⟩
  · intro h
    exact foldl_mwStep_of_nofire name options _ st1 h
  · intro h
    refine foldl_mwStep_of_ne name options _ st1 ?_
    intro x hx heq
    subst heq
    exact h hx

/-- C3 witness: a `match_window` field left unresolved by the main pass is
bound to a declared unused `Match` option. -/
theorem match_window_exception_witness :
    "Match" ∈ (mwPass "c" ["Match"]
        (mainPass "c" ["Match"] [] [] []
          [{ field := "match_window", field_type := "str", required := false,
             struct_field_name := "Match_window" }])).used ∧
    (mwPass "c" ["Match"]
        (mainPass "c" ["Match"] [] [] []
          [{ field := "match_window", field_type := "str", required := false,
             struct_field_name := "Match_window" }])).unhandled =
      assocErase
        (mainPass "c" ["Match"] [] [] []
          [{ field := "match_window", field_type := "str", required := false,
             struct_field_name := "Match_window" }]).unhandled "match_window" ∧
    "match_window" ∉ (mwPass "c" ["Match"]
        (mainPass "c" ["Match"] [] [] []
          [{ field := "match_window", field_type := "str", required := false,
             struct_field_name := "Match_window" }])).unhandled.map Prod.fst :=
  (match_window_exception "c" ["Match"] [] [] []
    [{ field := "match_window", field_type := "str", required := false,
       struct_field_name := "Match_window" }] _ rfl).1
    ⟨by decide, by decide, by decide⟩

/-! ## The Idempotent Writer -/

theorem assocInsert_lookup {α : Type} (l : List (String × α)) (k : String) (v : α) :
    (assocInsert l k v).lookup k = some v := by
  induction l with
  | nil => simp [assocInsert, List.lookup]
  | cons kv t ih =>
    obtain ⟨k', v'⟩ := kv
    by_cases hk : k' = k
    · subst hk
      simp [assocInsert, List.lookup]
    · have hk' : ¬(k = k') := fun he => hk he.symm
      have hkb : (k == k') = false := by simp [hk']
      simp [assocInsert, hk, List.lookup, hkb, ih]

/-- C9: the Idempotent Writer compares the banner-prefixed text against
the existing content (missing file = empty), writes and records the path
only on difference; writing the same content twice records the path only
on the first write and the second write changes nothing. -/
theorem replace_if_needed_idempotent (fs : FileSystem) (path content : String) :
    ((fs.files.lookup path).getD "" = generatedBanner ++ content →
      replace_if_needed fs path content = fs) ∧
    ((fs.files.lookup path).getD "" ≠ generatedBanner ++ content →
      replace_if_needed fs path content =
        { files := assocInsert fs.files path (generatedBanner ++ content),
          changed := fs.changed ++ [path] }) ∧
    replace_if_needed (replace_if_needed fs path content) path content =
      replace_if_needed fs path content ∧
    ((fs.files.lookup path).getD "" ≠ generatedBanner ++ content →
      (replace_if_needed (replace_if_needed fs path content) path content).changed =
        fs.changed ++ [path]) ∧
    ((fs.files.lookup path).getD "" = generatedBanner ++ content →
      (replace_if_needed (replace_if_needed fs path content) path content).changed =
        fs.changed) := by
  have ha : (fs.files.lookup path).getD "" = generatedBanner ++ content →
      replace_if_needed fs path content = fs := by
    intro h
    simp [replace_if_needed, h]
  have hb : (fs.files.lookup path).getD "" ≠ generatedBanner ++ content →
      replace_if_needed fs path content =
        { files := assocInsert fs.files path (generatedBanner ++ content),
          changed := fs.changed ++ [path] } := by
    intro h
    simp [replace_if_needed, h]
  have hc : replace_if_needed (replace_if_needed fs path content) path content =
      replace_if_needed fs path content := by
    by_cases h : (fs.files.lookup path).getD "" = generatedBanner ++ content
    · rw [ha h, ha h]
    · rw [hb h]
      simp [replace_if_needed, assocInsert_lookup]
  refine ⟨ha, hb, hc, ?_, ?_⟩
  · intro h
    rw [hc, hb h]
  · intro h
    rw [hc, ha h]

/-- C9 witness: writing the same content twice to a fresh tree records the
path exactly once. -/
theorem replace_if_needed_idempotent_witness :
    (replace_if_needed
        (replace_if_needed { files := [], changed := [] } "a_generated.go" "x")
        "a_generated.go" "x").changed =
      ([] : List String) ++ ["a_generated.go"] :=
  (replace_if_needed_idempotent { files := [], changed := [] } "a_generated.go" "x").2.2.2.1
    (by decide)

end GenGoCode
